import Mathlib

/-!
Verification of the EMSE C-preprocessor dependency-resolution tool.

This file gives a shallow embedding of the algorithmic core of the
repository's two resolution-loop variants:

* `src/preprocessor_working.py` — `extract_missing_info`, `update_includes`,
  `find_file_from_map`, `replace_temp_paths_in_output`, the iterative
  resolution loop of `preprocess_file`, and the batch driver
  `process_files` / `process_file_with_logging`;
* `src/preprocessor.py` — the cycle-guarded resolution loop of
  `preprocess_project` and its batch behaviour.

External effects (the `cpp` tool, the file system) are modelled as oracles:
probe outcomes are an input trace consumed one element per invocation, the
file-name index is an association list, path existence is a boolean-valued
function, and staged file contents live in an association list keyed by
basename.  Python strings are modelled as `String` / `List Char`; the regular
expressions of the source are translated into explicit character-level
scanners with the same matching semantics (leftmost match, greedy or lazy
exactly as the pattern dictates).
-/

set_option maxRecDepth 4000

namespace EMSE

/-! ## Basic string helpers -/

/-- Python `\s` whitespace class: space, tab, newline, carriage return,
form feed, vertical tab. -/
def isPySpace (c : Char) : Bool :=
  c = ' ' || c = '\t' || c = '\n' || c = '\r' || c = Char.ofNat 12 || c = Char.ofNat 11

/-- Python `str.strip()` on a character list: drop whitespace at both ends. -/
def stripChars (l : List Char) : List Char :=
  ((l.dropWhile isPySpace).reverse.dropWhile isPySpace).reverse

/-- Python `str.strip()`. -/
def stripStr (s : String) : String := ⟨stripChars s.data⟩

/-- Does `pat` occur at the start of `l`? (literal, character by character) -/
def litPre : List Char → List Char → Bool
  | [], _ => true
  | _ :: _, [] => false
  | p :: ps, c :: cs => p = c && litPre ps cs

/-- Python `pat in s`: does `pat` occur as a contiguous substring of `l`? -/
def containsSub (pat : List Char) : List Char → Bool
  | [] => litPre pat []
  | c :: cs => litPre pat (c :: cs) || containsSub pat cs

/-- Split a character list at newline characters (model of Python
`str.splitlines`, restricted to `\n`, the only separator produced by the
tool output handled here). A trailing newline yields no empty final line,
as in Python. -/
def splitNl : List Char → List (List Char)
  | [] => []
  | c :: cs =>
    if c = '\n' then [] :: splitNl cs
    else
      match splitNl cs with
      | [] => [[c]]
      | l :: ls => (c :: l) :: ls

/-- `str.splitlines` on strings. -/
def splitLines (s : String) : List String :=
  (splitNl s.data).map fun l => ⟨l⟩

/-- Basename of a POSIX path: the part after the last `/`
(model of `pathlib.Path(p).name` / `os.path.basename`). -/
def basenameOf (s : String) : String := ⟨(s.data.reverse.takeWhile (· ≠ '/')).reverse⟩

/-- Directory part of a POSIX path (model of `pathlib.Path(p).parent`):
text before the last `/`; `"."` when there is no separator, `"/"` for
top-level entries. -/
def dirnameOf (s : String) : String :=
  if s.data.contains '/' then
    let d := (s.data.reverse.dropWhile (· ≠ '/')).reverse.dropLast
    if d = [] then "/" else ⟨d⟩
  else "."

/-- `os.path.join`/`pathlib /` for a relative second component. -/
def joinPath (d f : String) : String := d ++ "/" ++ f

/-- Does the name contain a path separator (`'/' in s or '\\' in s`)? -/
def hasSep (s : String) : Bool := s.data.contains '/' || s.data.contains '\\'

/-- POSIX `os.path.isabs`. -/
def isAbsPath (s : String) : Bool :=
  match s.data with
  | [] => false
  | c :: _ => c = '/'

/-- First-match lookup in an association list (model of Python `dict`
reads; keys are unique in the dictionaries modelled here). -/
def lookupAssoc {α : Type} : List (String × α) → String → Option α
  | [], _ => none
  | (k, v) :: rest, key => if k = key then some v else lookupAssoc rest key

/-- Update of an association list (model of Python `dict` assignment):
replace the first binding of the key, or append a new one. -/
def setAssoc {α : Type} : List (String × α) → String → α → List (String × α)
  | [], key, v => [(key, v)]
  | (k, w) :: rest, key, v =>
    if k = key then (k, v) :: rest else (k, w) :: setAssoc rest key v

/-! ## `extract_missing_info` (`src/preprocessor_working.py`, lines 101–178)

The function parses the stderr of `cpp -M`.  Three regular expressions are
used; each is translated into a scanner with Python `re.search` semantics
(earliest starting position wins; within one starting position the pattern's
own greediness decides).
-/

/-- Try to match `fatal error: ([^:]+): No such file or directory` at the
head of `l`; on success return the capture group.  `[^:]+` is greedy and
cannot cross a colon, so the capture is exactly the colon-free run after
the literal prefix, and the run must be followed by `: No such file or
directory`. -/
def fatalAt (l : List Char) : Option (List Char) :=
  if litPre "fatal error: ".data l then
    let rest := l.drop "fatal error: ".data.length
    let cap := rest.takeWhile (· ≠ ':')
    if cap ≠ [] && litPre (": No such file or directory".data) (rest.drop cap.length) then
      some cap
    else none
  else none

/-- `re.search` for the missing-file pattern: earliest match anywhere in
the message (`missing_file_pattern.search(error_message)`). -/
def fatalSearch : List Char → Option (List Char)
  | [] => none
  | c :: cs =>
    match fatalAt (c :: cs) with
    | some cap => some cap
    | none => fatalSearch cs

/-- Scan for the lazy group `(.*?)[>"]` of the include pattern: find the
nearest `>` or `"`; `.` does not match a newline, so a newline before the
closing delimiter means no match at this position. -/
def scanIncludeClose : List Char → Option (List Char)
  | [] => none
  | c :: cs =>
    if c = '>' || c = '"' then some []
    else if c = '\n' then none
    else
      match scanIncludeClose cs with
      | some p => some (c :: p)
      | none => none

/-- Try to match `#include\s+([<"])(.*?)[>"]` at the head of `l`; return
the delimiter capture and the path capture.  `\s+` is greedy over a
whitespace run and only its maximal extent can be followed by `<` or `"`. -/
def includeAt (l : List Char) : Option (Char × List Char) :=
  if litPre "#include".data l then
    let rest := l.drop "#include".data.length
    let ws := rest.takeWhile isPySpace
    if ws ≠ [] then
      match rest.drop ws.length with
      | [] => none
      | d :: after =>
        if d = '<' || d = '"' then
          match scanIncludeClose after with
          | some p => some (d, p)
          | none => none
        else none
    else none
  else none

/-- `include_line_pattern.search(error_message)`: first `#include` match
anywhere in the whole message, not necessarily on the line of the missing
file. -/
def includeSearch : List Char → Option (Char × List Char)
  | [] => none
  | c :: cs =>
    match includeAt (c :: cs) with
    | some r => some r
    | none => includeSearch cs

/-- Try to match `^([^:]+):\d+:\d+: fatal error:` at the start of a line;
return the capture (the includer path). -/
def includerAt (l : List Char) : Option (List Char) :=
  let cap := l.takeWhile (· ≠ ':')
  if cap = [] then none
  else
    match l.drop cap.length with
    | ':' :: r1 =>
      let d1 := r1.takeWhile Char.isDigit
      if d1 = [] then none
      else
        match r1.drop d1.length with
        | ':' :: r2 =>
          let d2 := r2.takeWhile Char.isDigit
          if d2 = [] then none
          else if litPre ": fatal error:".data (r2.drop d2.length) then some cap
          else none
        | _ => none
    | _ => none

/-- The includer scan of `extract_missing_info` (lines 159–174): walk the
lines of the message; on the first line containing both `fatal error:` and
the missing file name, try the includer pattern; if it matches, that
capture (stripped) is the includer and scanning stops, otherwise keep
scanning later lines. -/
def findIncluder (missingFile : List Char) : List (List Char) → Option String
  | [] => none
  | line :: rest =>
    if containsSub "fatal error:".data line && containsSub missingFile line then
      match includerAt line with
      | some cap => some (stripStr ⟨cap⟩)
      | none => findIncluder missingFile rest
    else findIncluder missingFile rest

/-- `extract_missing_info(error_message)` (lines 101–178): returns
`(missing_file, is_system, includer)`.  `is_system` defaults to `False`
and is set from the delimiter of the first `#include` match anywhere in
the message; the includer comes from the per-line scan. -/
def extractMissingInfo (msg : String) : Option (String × Bool × Option String) :=
  match fatalSearch msg.data with
  | none => none
  | some cap =>
    let missingFile := stripStr ⟨cap⟩
    let isSystem :=
      match includeSearch msg.data with
      | some (d, _) => d = '<'
      | none => false
    let includer := findIncluder missingFile.data (splitNl msg.data)
    some (missingFile, isSystem, includer)

/-! ## `update_includes` (`src/preprocessor_working.py`, lines 213–296)

The rewriter works line by line on the staged file's text.  Only quoted
directives are candidates: the pattern is `^(\s*#include\s+")([^>]+)(")`
(`re.match`, i.e. anchored at the start of the line).  The greedy `[^>]+`
followed by `"` captures up to the last double quote inside the maximal
`>`-free prefix of the text after the opening quote; anything after that
closing quote is outside the match and is dropped when the line is
rebuilt from the three groups.  File contents are modelled as lists of
lines (`splitlines` of the staged text); the write-back on modification
preserves exactly these lines.
-/

/-- A successful match of `^(\s*#include\s+")([^>]+)(")` against a line,
kept in structured form: group 1 is `ws1 ++ "#include" ++ ws2 ++ "\""`,
group 2 is `path`, group 3 the closing quote; `trailing` is the text after
the match (not part of any group). -/
structure QIncl where
  ws1 : List Char
  ws2 : List Char
  path : List Char
  trailing : List Char
deriving Repr, DecidableEq

/-- Group 1 of the quoted-include pattern. -/
def qinclPre (q : QIncl) : List Char := q.ws1 ++ "#include".data ++ q.ws2 ++ ['"']

/-- Index of the last `'"'` in `l`, if any. -/
def lastQuotePos (l : List Char) : Option Nat :=
  match l.reverse.findIdx? (· = '"') with
  | some j => some (l.length - 1 - j)
  | none => none

/-- `re.match` of `^(\s*#include\s+")([^>]+)(")` against one line.
`\s*` and `\s+` are greedy over whitespace runs (no shorter run can be
followed by the required literal); `[^>]+` is greedy, so the capture ends
at the last `'"'` that is preceded only by `>`-free text, and it must be
nonempty. -/
def parseQuotedInclude (line : List Char) : Option QIncl :=
  let ws1 := line.takeWhile isPySpace
  let r1 := line.drop ws1.length
  if litPre "#include".data r1 then
    let r2 := r1.drop "#include".data.length
    let ws2 := r2.takeWhile isPySpace
    if ws2 = [] then none
    else
      match r2.drop ws2.length with
      | '"' :: r =>
        match lastQuotePos (r.takeWhile (· ≠ '>')) with
        | some k => if 1 ≤ k then some ⟨ws1, ws2, r.take k, r.drop (k + 1)⟩ else none
        | none => none
      | _ => none
  else none

/-- The line rebuilt from the match groups with the flattened base name:
`f'{prefix}{missing_file_base_name}{suffix}'` — group 1, the base name,
the closing quote.  Text after the closing quote is not in any group and
disappears. -/
def flattenLine (q : QIncl) (base : String) : List Char :=
  qinclPre q ++ base.data ++ ['"']

/-- One step of the rewrite loop: prepend an untouched line. -/
def keepLine (line : String) (r : List String × Bool) : List String × Bool :=
  (line :: r.1, r.2)

/-- The scan of `update_includes`: find the first quoted include whose
referenced basename equals the target and whose flattened form differs
from the original line (after `strip`); replace it and stop, keeping all
later lines; an already-flattened match is kept and the scan continues. -/
def updateIncludesGo (base : String) : List String → List String × Bool
  | [] => ([], false)
  | line :: rest =>
    match parseQuotedInclude line.data with
    | some q =>
      if basenameOf ⟨q.path⟩ = base then
        let modified : String := ⟨flattenLine q base⟩
        if stripStr line ≠ stripStr modified then (modified :: rest, true)
        else keepLine line (updateIncludesGo base rest)
      else keepLine line (updateIncludesGo base rest)
    | none => keepLine line (updateIncludesGo base rest)

/-- `update_includes(file_to_update, missing_file_base_name)` on the file's
lines; returns the new lines and whether a modification occurred (the file
is only written back when it did). -/
def updateIncludes (content : List String) (missingBaseName : String) :
    List String × Bool :=
  updateIncludesGo missingBaseName content

/-- Characterisation predicate: the line is a quoted `#include` whose
referenced basename equals `base` (flattened or not). -/
def matchesBase (base : String) (line : String) : Bool :=
  match parseQuotedInclude line.data with
  | some q => decide (basenameOf ⟨q.path⟩ = base)
  | none => false

/-- Characterisation predicate: the line is a quoted `#include` that
`update_includes` would rewrite for `base` — the referenced basename
matches and the flattened form differs from the original (modulo
`strip`). -/
def isRewritableLine (base : String) (line : String) : Bool :=
  match parseQuotedInclude line.data with
  | some q =>
    decide (basenameOf ⟨q.path⟩ = base) &&
      decide (stripStr line ≠ stripStr ⟨flattenLine q base⟩)
  | none => false

/-! ## `find_file_from_map` (`src/preprocessor_working.py`, lines 825–877)

The candidate selector.  The file-name index (`file_map`) is an
association list basename ↦ candidate paths in the order produced by the
project scan; `fs` is the file-system existence oracle standing for
`Path.exists()`.  `Path.resolve()` normalisation (symlinks, `..`) is not
modelled; relative resolution is plain path joining. -/

/-- `find_file_from_map(filename_to_find, from_file_path, file_map)`:
(1) a name containing a separator that resolves, relative to the
requesting file's directory, to an existing file is used directly;
(2) otherwise look up the basename in the map: no entry ⇒ `None`;
a unique candidate is returned as is; among several candidates one equal
to `source_dir / base` wins, else the first candidate in map order. -/
def findFileFromMap (filenameToFind : String) (fromFilePath : String)
    (fileMap : List (String × List String)) (fs : String → Bool) : Option String :=
  let sourceDir := dirnameOf fromFilePath
  let baseFilename := basenameOf filenameToFind
  if hasSep filenameToFind && fs (joinPath sourceDir filenameToFind) then
    some (joinPath sourceDir filenameToFind)
  else
    match lookupAssoc fileMap baseFilename with
    | none => none
    | some [] => none
    | some [p] => some p
    | some (p :: q :: ps) =>
      let sameDirPath := joinPath sourceDir baseFilename
      match (p :: q :: ps).find? (fun x => x = sameDirPath) with
      | some x => some x
      | none => some p

/-! ## `replace_temp_paths_in_output` (`src/preprocessor_working.py`,
lines 355–401)

Rewrites location markers in the `cpp -E` output: a line matching
`^(#line\s+\d+\s+"|\#\s+\d+\s+")([^"]+)(".*)$` whose path group is a key
of the workspace→original path map has the path replaced by its image
(with backslashes doubled); any other line is kept verbatim. -/

/-- A line-marker match in structured form: `pre` is group 1 (up to and
including the opening quote), `path` group 2, `suf` group 3 (from the
closing quote to the end of the line). -/
structure MarkerMatch where
  pre : List Char
  path : List Char
  suf : List Char
deriving Repr, DecidableEq

/-- Match `\s+\d+\s+"` and return the consumed prefix together with the
remainder after the opening quote. -/
def markerTail (l : List Char) : Option (List Char × List Char) :=
  let ws1 := l.takeWhile isPySpace
  if ws1 = [] then none
  else
    let r1 := l.drop ws1.length
    let ds := r1.takeWhile Char.isDigit
    if ds = [] then none
    else
      let r2 := r1.drop ds.length
      let ws2 := r2.takeWhile isPySpace
      if ws2 = [] then none
      else
        match r2.drop ws2.length with
        | '"' :: r => some (ws1 ++ ds ++ ws2 ++ ['"'], r)
        | _ => none

/-- One alternative of the line-directive pattern: `lead` is the matched
leading literal (`#line` or `#`), `rest` the text after it; group 2 is
the greedy quote-free run after the opening quote and must be nonempty
and followed by a closing quote (group 3 takes the rest of the line). -/
def markerAlt (lead : List Char) (rest : List Char) : Option MarkerMatch :=
  match markerTail rest with
  | some (consumed, r) =>
    let path := r.takeWhile (· ≠ '"')
    if path ≠ [] && (r.drop path.length).head? = some '"' then
      some (MarkerMatch.mk (lead ++ consumed) path (r.drop path.length))
    else none
  | none => none

/-- `re.match` of the line-directive pattern against one line.  The first
alternative `#line\s+\d+\s+"` is tried, then `\#\s+\d+\s+"`. -/
def parseLineMarker (line : List Char) : Option MarkerMatch :=
  if litPre "#line".data line then
    match markerAlt "#line".data (line.drop "#line".data.length) with
    | some m => some m
    | none =>
      match line with
      | '#' :: rest => markerAlt ['#'] rest
      | _ => none
  else
    match line with
    | '#' :: rest => markerAlt ['#'] rest
    | _ => none

/-- Backslash escaping applied to the original path before insertion:
`original_path.replace('\\', '\\\\')`. -/
def escapeBackslash (s : String) : String :=
  ⟨s.data.flatMap fun c => if c = '\\' then ['\\', '\\'] else [c]⟩

/-- Per-line transform of `replace_temp_paths_in_output`: a marker line
whose path is in the map is rebuilt as `prefix + escaped original + suffix`;
everything else is kept. -/
def replaceMarkerLine (tempToOriginalMap : List (String × String)) (line : String) :
    String :=
  match parseLineMarker line.data with
  | some m =>
    match lookupAssoc tempToOriginalMap ⟨m.path⟩ with
    | some originalPath => ⟨m.pre ++ (escapeBackslash originalPath).data ++ m.suf⟩
    | none => line
  | none => line

/-- The `new_lines` list built by `replace_temp_paths_in_output` from the
split content. -/
def replaceTempPathsLines (lines : List String)
    (tempToOriginalMap : List (String × String)) : List String :=
  lines.map (replaceMarkerLine tempToOriginalMap)

/-- `replace_temp_paths_in_output(content, temp_to_original_map)`:
split into lines, rewrite markers, re-join, restoring a trailing newline
when the input had one. -/
def replaceTempPaths (content : String) (tempToOriginalMap : List (String × String)) :
    String :=
  let lines := replaceTempPathsLines (splitLines content) tempToOriginalMap
  String.intercalate "\n" lines ++ (if content.data.getLast? = some '\n' then "\n" else "")

/-! ## Resolution loop of `preprocess_file`
(`src/preprocessor_working.py`, lines 432–639)

The external `cpp -M` invocations are an oracle: the loop consumes one
element of a probe trace per invocation.  A trace element is either
success or a failure already parsed by `extract_missing_info`
(embedded above as `extractMissingInfo`); `Probe.err none` stands for a
stderr from which no missing-file information could be extracted.
Staged file contents live in an association list keyed by basename
(the temp directory is flat); the workspace→original `PathMap` is the
`temp_to_original_map` dictionary.  The `stat`-based up-to-date check
that may skip re-copying an already staged dependency (lines 552–561)
is an environment observation and is modelled by the boolean oracle
`upToDate`. -/

/-- Parsed result of `extract_missing_info`. -/
structure MissingInfo where
  missingFile : String
  isSystem : Bool
  includer : Option String
deriving Repr, DecidableEq

/-- One `cpp -M` probe outcome, already run through the diagnostic
parser. -/
inductive Probe where
  | ok
  | err (info : Option MissingInfo)
deriving Repr, DecidableEq

/-- Environment of one `preprocess_file` call: the temp directory name,
the staged unit's basename and resolved original path, the pre-built
file map, the path-existence oracle `fs`, the original file contents
oracle `orig`, and the staleness oracle `upToDate` for the skip-copy
check. -/
structure WEnv where
  tempDirName : String
  mainName : String
  origMainPath : String
  fileMap : List (String × List String)
  fs : String → Bool
  orig : String → List String
  upToDate : String → String → Bool

/-- Path of a staged basename inside the temp directory. -/
def tempPath (env : WEnv) (base : String) : String :=
  joinPath env.tempDirName base

/-- Mutable state of the loop: staged contents by basename, the
`temp_to_original_map`, and the iteration counter `dependency_count`. -/
structure WState where
  tempDir : List (String × List String)
  pathMap : List (String × String)
  count : Nat
deriving Repr, DecidableEq

/-- Staging of a found dependency (lines 549–577): if the basename is
already present and the stat comparison says it is up to date, nothing
happens; otherwise the file is copied (its content installed under the
flattened basename) and the workspace path is mapped to the original. -/
def stage (env : WEnv) (s : WState) (base srcPath : String) : WState :=
  let skip :=
    match lookupAssoc s.tempDir base with
    | some _ => env.upToDate (tempPath env base) srcPath
    | none => false
  if skip then s
  else
    { s with
      tempDir := setAssoc s.tempDir base (env.orig srcPath)
      pathMap := setAssoc s.pathMap (tempPath env base) srcPath }

/-- Reasons for a `return False` issued inside the loop body. -/
inductive WFail where
  | extractFailed
  | systemHeader (name : String)
  | notFoundInMap (name : String)
  | includerNotFound (includer : Option String)
deriving Repr, DecidableEq

/-- How control left the `while` loop. -/
inductive WExit where
  | successBreak
  | normalExit
  | traceEnded
  | earlyFail (f : WFail)
deriving Repr, DecidableEq

/-- Result of running the loop: the exit kind, the final state, and the
unconsumed probe trace. -/
structure WResult where
  exit : WExit
  state : WState
  rest : List Probe
deriving Repr, DecidableEq

/-- One iteration of the `while dependency_count < max_iterations` body
(lines 487–602), parameterised by the continuation for the next
iteration.  In order: increment the counter; run `cpp -M`; on success
break; on an unparseable error fail; on a system header fail; find the
dependency via the map (searching from the includer's staged copy when
it exists, else from the staged unit); a map miss fails; stage the file;
recompute the includer's staged copy — its absence is a hard failure;
rewrite its includes and continue. -/
def loopBody (env : WEnv) (next : WState → List Probe → WResult)
    (s : WState) (tr : List Probe) : WResult :=
  let s := { s with count := s.count + 1 }
  match tr with
  | [] => ⟨.traceEnded, s, []⟩
  | p :: rest =>
    match p with
    | .ok => ⟨.successBreak, s, rest⟩
    | .err none => ⟨.earlyFail .extractFailed, s, rest⟩
    | .err (some info) =>
      let base := basenameOf info.missingFile
      if info.isSystem then ⟨.earlyFail (.systemHeader info.missingFile), s, rest⟩
      else
        let searchFrom :=
          match info.includer with
          | some inc =>
            let ibase := basenameOf inc
            match lookupAssoc s.tempDir ibase with
            | some _ => tempPath env ibase
            | none => tempPath env env.mainName
          | none => tempPath env env.mainName
        match findFileFromMap info.missingFile searchFrom env.fileMap env.fs with
        | none => ⟨.earlyFail (.notFoundInMap info.missingFile), s, rest⟩
        | some src =>
          let s := stage env s base src
          match info.includer with
          | none => ⟨.earlyFail (.includerNotFound none), s, rest⟩
          | some inc =>
            let ibase := basenameOf inc
            match lookupAssoc s.tempDir ibase with
            | none => ⟨.earlyFail (.includerNotFound (some inc)), s, rest⟩
            | some content =>
              let res := updateIncludes content base
              let s :=
                if res.2 then { s with tempDir := setAssoc s.tempDir ibase res.1 }
                else s
              next s rest

/-- The bounded loop: `fuel` is the number of remaining iterations the
`while` condition still admits (`max_iterations - dependency_count`). -/
def loopGo (env : WEnv) : Nat → WState → List Probe → WResult
  | 0, s, tr => ⟨.normalExit, s, tr⟩
  | fuel + 1, s, tr => loopBody env (loopGo env fuel) s tr

/-- `max_iterations = 5000` (line 484). -/
def maxIterations : Nat := 5000

/-- Observable outcome of one `preprocess_file` call up to the final
`cpp -E` stage. -/
inductive WOutcome where
  | resolved
  | failed (f : WFail)
  | budgetExceeded
  | traceEnded
deriving Repr, DecidableEq

/-- Initial state: the unit copied into the temp directory and recorded
in the path map (lines 467–474). -/
def initState (env : WEnv) (mainContent : List String) : WState :=
  ⟨[(env.mainName, mainContent)], [(tempPath env env.mainName, env.origMainPath)], 0⟩

/-- `preprocess_file` up to dependency resolution: run the loop, then the
post-loop check `dependency_count >= max_iterations` (lines 605–608),
which reports iteration-budget exhaustion; in-loop `return False` paths
bypass that check. -/
def preprocessFile (env : WEnv) (mainContent : List String) (tr : List Probe) :
    WOutcome × WState × List Probe :=
  let r := loopGo env maxIterations (initState env mainContent) tr
  match r.exit with
  | .earlyFail f => (.failed f, r.state, r.rest)
  | .traceEnded => (.traceEnded, r.state, r.rest)
  | .successBreak =>
    if r.state.count ≥ maxIterations then (.budgetExceeded, r.state, r.rest)
    else (.resolved, r.state, r.rest)
  | .normalExit =>
    if r.state.count ≥ maxIterations then (.budgetExceeded, r.state, r.rest)
    else (.resolved, r.state, r.rest)

/-- Characterisation predicate for C5: a probe outcome on which the loop
body completes a full iteration and loops again — a project-header miss
whose named includer is the staged unit itself and whose basename the
pre-built map resolves.  (`is_system` false, includer present, candidate
found.) -/
def progressingProbe (env : WEnv) (p : Probe) : Prop :=
  ∃ mfile inc src,
    p = Probe.err (some ⟨mfile, false, some inc⟩) ∧
    basenameOf inc = env.mainName ∧
    findFileFromMap mfile (tempPath env env.mainName) env.fileMap env.fs = some src

/-- A small concrete environment for witness runs: one unit `a.c` from
`/proj/a.c`, a map with a single `util.h` candidate, no relative
resolution, constant staged contents. -/
def envA : WEnv :=
  ⟨"/dev/shm/pre", "a.c", "/proj/a.c", [("util.h", ["/proj/util.h"])],
    fun _ => false, fun _ => ["int u;"], fun _ _ => false⟩

/-! ## Resolution loop of `preprocess_project`
(`src/preprocessor.py`, lines 531–800)

The older variant of the loop.  Probe outcomes of `run_preprocessor` are
again an oracle trace; a trace element carries the result of
`extract_missing_file` (name and system flag, no includer).  The per-unit
cycle guard is the `attempted_missing_files` set, modelled as a list.
`relExists` is the oracle for the strategy-1 existence checks on the path
joined from the unit's directory (or the project root); `cands b` is the
list returned by `find_files_by_name` for basename `b` (sorted by
decreasing size by that function).  The file-content mutations performed
by this variant's `update_includes` act only on the staged text, which
never feeds back into the oracle-driven control flow, so the staged text
is not part of this model's state. -/

/-- One probe outcome of `run_preprocessor`, parsed by
`extract_missing_file`: success, a missing file with its system flag, or
an error from which nothing could be extracted. -/
inductive PyProbe where
  | ok
  | err (info : Option (String × Bool))
deriving Repr, DecidableEq

/-- Terminal condition of the per-unit loop. -/
inductive PyExit where
  | resolvedExit
  | cycleFail (basename : String)
  | systemFail (name : String)
  | notFoundFail (name : String)
  | toolFail
  | traceEnded
deriving Repr, DecidableEq

/-- Outcome of a strategy step that consumed probes. -/
inductive PyInner where
  | contOuter
  | fall2
  | fatalSys (name : String)
  | tEnded
deriving Repr, DecidableEq

/-- Strategy 1 (lines 574–657): after staging the exact-path match and
rewriting, one test probe is run.  Success, a different missing file, or
the same missing file still classified non-system all leave
`exact_path_found` true and return to the outer loop; the same missing
file classified system is fatal; an unparseable test error clears
`exact_path_found` and falls through to strategy 2. -/
def pyExactStep (missing : String) : List PyProbe → PyInner × List PyProbe
  | [] => (.tEnded, [])
  | t :: tr =>
    match t with
    | .ok => (.contOuter, tr)
    | .err none => (.fall2, tr)
    | .err (some (newMissing, newSys)) =>
      if newMissing ≠ missing then (.contOuter, tr)
      else if newSys then (.fatalSys newMissing, tr)
      else (.contOuter, tr)

/-- Strategy 2 inner loop (lines 682–751): try each candidate in turn,
one test probe per candidate; success or a different missing file breaks
out with progress; the same file reclassified system is fatal; otherwise
the next candidate is tried.  Exhausting all candidates stages the
largest one as a best effort and returns to the outer loop (lines
753–788) without consuming a probe. -/
def pyTryMatches (missing : String) : List String → List PyProbe → PyInner × List PyProbe
  | [], tr => (.contOuter, tr)
  | _ :: ms, tr =>
    match tr with
    | [] => (.tEnded, [])
    | t :: tr2 =>
      match t with
      | .ok => (.contOuter, tr2)
      | .err none => pyTryMatches missing ms tr2
      | .err (some (newMissing, newSys)) =>
        if newMissing ≠ missing then (.contOuter, tr2)
        else if newSys then (.fatalSys newMissing, tr2)
        else pyTryMatches missing ms tr2

/-- Result of processing one outer probe: either the loop is over, or it
continues with an extended attempted set and the rest of the trace. -/
inductive PyStep where
  | term (e : PyExit) (att : List String) (rest : List PyProbe)
  | cont (att : List String) (rest : List PyProbe)
deriving Repr, DecidableEq

/-- Interpretation of a strategy-2 run as a `PyStep` (lines 659–794): no
candidate at all is a not-found failure; otherwise the inner loop's
verdict decides. -/
def pyStrat2 (cands : String → List String) (missing : String)
    (att2 : List String) (tr2 : List PyProbe) : PyStep :=
  match cands (basenameOf missing) with
  | [] => .term (.notFoundFail missing) att2 tr2
  | c :: cs =>
    match pyTryMatches missing (c :: cs) tr2 with
    | (.contOuter, r) => .cont att2 r
    | (.fatalSys n, r) => .term (.systemFail n) att2 r
    | (.fall2, r) => .term .traceEnded att2 r
    | (.tEnded, r) => .term .traceEnded att2 r

/-- Strategy 1 followed, on fall-through, by strategy 2 (lines 574–794). -/
def pyStrat1 (relExists : String → Bool) (cands : String → List String)
    (missing : String) (att2 : List String) (tr : List PyProbe) : PyStep :=
  if ¬ isAbsPath missing && relExists missing then
    match pyExactStep missing tr with
    | (.contOuter, r) => .cont att2 r
    | (.fatalSys n, r) => .term (.systemFail n) att2 r
    | (.fall2, r) => pyStrat2 cands missing att2 r
    | (.tEnded, r) => .term .traceEnded att2 r
  else pyStrat2 cands missing att2 tr

/-- The body of `while is_processable` for one outer probe `p` (lines
536–800): success resolves; an unparseable error is a tool failure; a
missing file whose basename was already attempted is a circular
dependency, detected before anything else; otherwise the basename is
marked attempted, a system header is fatal, and the two search
strategies run, consuming further probes from `tr`. -/
def pyLoopStep (relExists : String → Bool) (cands : String → List String)
    (p : PyProbe) (tr : List PyProbe) (att : List String) : PyStep :=
  match p with
  | .ok => .term .resolvedExit att tr
  | .err none => .term .toolFail att tr
  | .err (some (missing, isSys)) =>
    let b := basenameOf missing
    if b ∈ att then .term (.cycleFail b) att tr
    else if isSys then .term (.systemFail missing) (b :: att) tr
    else pyStrat1 relExists cands missing (b :: att) tr

/-- Final observable of the per-unit loop. -/
structure PyFinal where
  exit : PyExit
  attempted : List String
  rest : List PyProbe
deriving Repr, DecidableEq

/-- The outer `while is_processable` loop (lines 536–800), by recursion
on a fuel count: consume the head probe, process it, and either stop or
continue on the remaining trace.  An exhausted oracle trace ends the
model run; the Python loop itself is unbounded, but every iteration
consumes at least one probe, so running it with the trace length as fuel
(`pyLoop` below) never cuts an execution short. -/
def pyLoopFuel (relExists : String → Bool) (cands : String → List String) :
    Nat → List PyProbe → List String → PyFinal
  | 0, tr, att => ⟨.traceEnded, att, tr⟩
  | _ + 1, [], att => ⟨.traceEnded, att, []⟩
  | fuel + 1, p :: tr, att =>
    match pyLoopStep relExists cands p tr att with
    | .term e a r => ⟨e, a, r⟩
    | .cont a r => pyLoopFuel relExists cands fuel r a

/-- The per-unit resolution loop of `preprocess_project`, driven by the
full probe trace. -/
def pyLoop (relExists : String → Bool) (cands : String → List String)
    (tr : List PyProbe) (att : List String) : PyFinal :=
  pyLoopFuel relExists cands tr.length tr att

/-! ## Batch drivers

`src/preprocessor_working.py`: `process_file_with_logging` (lines
704–733) wraps each `preprocess_file` call in `try/except` and returns
`False` on any exception; `process_files` (lines 735–776) folds that
over the unit list, counting successes and failures.

`src/preprocessor.py`: the per-unit loop of `preprocess_project` runs
inside a single `try` whose handler (lines 868–871) cleans up and
re-raises, so an exception raised while processing one unit (for
example the staging `RuntimeError`s of lines 519–525, 604–617 or the
`update_includes` permission error of lines 280–282) ends the whole
batch.  A unit's observable is abstracted to: returned success,
returned failure, or raised an exception with a message. -/

/-- Observable of one `preprocess_file` call in the working variant. -/
inductive UnitRun where
  | ok
  | fail
  | exc (msg : String)
deriving Repr, DecidableEq

/-- `process_file_with_logging`: the `try/except` wrapper — an exception
is logged and converted to `False`. -/
def processFileWithLogging : UnitRun → Bool
  | .ok => true
  | .fail => false
  | .exc _ => false

/-- `process_files`: fold over all units, counting
`(successful, failed)`; every unit is visited. -/
def processFiles (units : List UnitRun) : Nat × Nat :=
  units.foldl
    (fun acc u => if processFileWithLogging u then (acc.1 + 1, acc.2) else (acc.1, acc.2 + 1))
    (0, 0)

/-- Observable of one unit inside `preprocess_project`'s `for` loop. -/
inductive PyUnitRun where
  | processed
  | skipped
  | raised (msg : String)
deriving Repr, DecidableEq

/-- The per-unit `for` loop of `preprocess_project` under its enclosing
`try`: a raised exception propagates to the handler at lines 868–871,
which re-raises and aborts the batch; otherwise the counters advance and
the next unit is processed. -/
def preprocessProjectBatch : List PyUnitRun → Nat → Nat → Except String (Nat × Nat)
  | [], processed, skipped => .ok (processed, skipped)
  | u :: us, processed, skipped =>
    match u with
    | .processed => preprocessProjectBatch us (processed + 1) skipped
    | .skipped => preprocessProjectBatch us processed (skipped + 1)
    | .raised msg => .error msg

/-! ## Shared helper lemmas -/

/-- A literal is a prefix of itself followed by anything. -/
theorem litPre_self_append (p rest : List Char) : litPre p (p ++ rest) = true := by
  induction p with
  | nil => rfl
  | cons c cs ih => simp [litPre, ih]

/-- Members of a `takeWhile` satisfy the predicate. -/
theorem pred_of_mem_takeWhile {p : Char → Bool} {l : List Char} {x : Char}
    (h : x ∈ l.takeWhile p) : p x = true := by
  induction l with
  | nil => simp [List.takeWhile] at h
  | cons c cs ih =>
    by_cases hc : p c = true
    · rw [List.takeWhile_cons_of_pos hc] at h
      rcases List.mem_cons.mp h with h1 | h1
      · exact h1 ▸ hc
      · exact ih h1
    · rw [List.takeWhile_cons_of_neg (by simpa using hc)] at h
      simp at h

/-- `takeWhile` of a satisfying block followed by a failing head takes
exactly the block. -/
theorem takeWhile_append_block {p : Char → Bool} (l1 l2 : List Char)
    (h1 : ∀ a ∈ l1, p a = true) (h2 : ∀ c, l2.head? = some c → p c = false) :
    (l1 ++ l2).takeWhile p = l1 := by
  induction l1 with
  | nil =>
    cases l2 with
    | nil => rfl
    | cons c cs =>
      simp only [List.nil_append]
      exact List.takeWhile_cons_of_neg (by simp [h2 c rfl])
  | cons a l1 ih =>
    simp only [List.cons_append]
    rw [List.takeWhile_cons_of_pos (h1 a (by simp))]
    rw [ih (fun x hx => h1 x (by simp [hx]))]

/-- Characterisation of `lookupAssoc` after a `setAssoc`. -/
theorem lookupAssoc_setAssoc {α : Type} (l : List (String × α)) (k k' : String) (v : α) :
    lookupAssoc (setAssoc l k v) k' = if k' = k then some v else lookupAssoc l k' := by
  induction l with
  | nil =>
    simp only [setAssoc, lookupAssoc]
    by_cases h : k' = k
    · simp [h]
    · simp [h, Ne.symm h]
  | cons kv rest ih =>
    obtain ⟨k0, v0⟩ := kv
    simp only [setAssoc]
    by_cases h0 : k0 = k
    · subst h0
      by_cases h1 : k' = k0
      · subst h1; simp [lookupAssoc]
      · have h2 : ¬ k0 = k' := fun hh => h1 hh.symm
        simp [lookupAssoc, h1, h2]
    · simp only [if_neg h0, lookupAssoc]
      by_cases h1 : k0 = k'
      · subst h1
        simp [if_neg (fun hh : k0 = k => h0 hh)]
      · simp [h1, ih]

/-- `lastQuotePos` of a block followed by a final quote. -/
theorem lastQuotePos_append_quote (xs : List Char) :
    lastQuotePos (xs ++ ['"']) = some xs.length := by
  unfold lastQuotePos
  have hrev : (xs ++ ['"']).reverse = '"' :: xs.reverse := by simp
  rw [hrev]
  simp [List.findIdx?_cons]

/-! ## Characterisation of `update_includes` -/

/-- When no modification is reported, the content is returned unchanged
and no line was rewritable. -/
theorem updateIncludesGo_false (base : String) :
    ∀ content : List String, (updateIncludesGo base content).2 = false →
      (updateIncludesGo base content).1 = content ∧
        ∀ l ∈ content, isRewritableLine base l = false := by
  intro content
  induction content with
  | nil => intro _; simp [updateIncludesGo]
  | cons line rest ih =>
    intro hu
    rcases hp : parseQuotedInclude line.data with _ | q
    · rw [updateIncludesGo, hp] at hu ⊢
      simp only [keepLine] at hu ⊢
      obtain ⟨h1, h2⟩ := ih hu
      refine ⟨by rw [h1], ?_⟩
      intro l hl
      rcases List.mem_cons.mp hl with h | h
      · subst h; simp [isRewritableLine, hp]
      · exact h2 l h
    · by_cases hb : basenameOf ⟨q.path⟩ = base
      · by_cases hs : stripStr line = stripStr ⟨flattenLine q base⟩
        · rw [updateIncludesGo, hp] at hu ⊢
          simp only [] at hu ⊢
          rw [if_pos hb, if_neg (by simpa using hs)] at hu ⊢
          simp only [keepLine] at hu ⊢
          obtain ⟨h1, h2⟩ := ih hu
          refine ⟨by rw [h1], ?_⟩
          intro l hl
          rcases List.mem_cons.mp hl with h | h
          · subst h; simp [isRewritableLine, hp, hs]
          · exact h2 l h
        · exfalso
          rw [updateIncludesGo, hp] at hu
          simp only [] at hu
          rw [if_pos hb, if_pos (by simpa using hs)] at hu
          simp at hu
      · rw [updateIncludesGo, hp] at hu ⊢
        simp only [] at hu ⊢
        rw [if_neg hb] at hu ⊢
        simp only [keepLine] at hu ⊢
        obtain ⟨h1, h2⟩ := ih hu
        refine ⟨by rw [h1], ?_⟩
        intro l hl
        rcases List.mem_cons.mp hl with h | h
        · subst h; simp [isRewritableLine, hp, hb]
        · exact h2 l h

/-- When a modification is reported, exactly one line — the first
rewritable one — was replaced by its flattened form; everything before
it was not rewritable and everything after it is untouched. -/
theorem updateIncludesGo_true (base : String) :
    ∀ content : List String, (updateIncludesGo base content).2 = true →
      ∃ pre line post q,
        content = pre ++ line :: post ∧
        (∀ l ∈ pre, isRewritableLine base l = false) ∧
        parseQuotedInclude line.data = some q ∧
        basenameOf ⟨q.path⟩ = base ∧
        stripStr line ≠ stripStr ⟨flattenLine q base⟩ ∧
        (updateIncludesGo base content).1 = pre ++ (⟨flattenLine q base⟩ : String) :: post := by
  intro content
  induction content with
  | nil => intro hu; simp [updateIncludesGo] at hu
  | cons line rest ih =>
    intro hu
    rcases hp : parseQuotedInclude line.data with _ | q
    · rw [updateIncludesGo, hp] at hu ⊢
      simp only [keepLine] at hu ⊢
      obtain ⟨pre, l0, post, q0, he, hpre, hq0, hb0, hs0, hres⟩ := ih hu
      exact ⟨line :: pre, l0, post, q0, by simp [he],
        fun l hl => by
          rcases List.mem_cons.mp hl with h | h
          · subst h; simp [isRewritableLine, hp]
          · exact hpre l h,
        hq0, hb0, hs0, by simp [hres]⟩
    · by_cases hb : basenameOf ⟨q.path⟩ = base
      · by_cases hs : stripStr line = stripStr ⟨flattenLine q base⟩
        · rw [updateIncludesGo, hp] at hu ⊢
          simp only [] at hu ⊢
          rw [if_pos hb, if_neg (by simpa using hs)] at hu ⊢
          simp only [keepLine] at hu ⊢
          obtain ⟨pre, l0, post, q0, he, hpre, hq0, hb0, hs0, hres⟩ := ih hu
          exact ⟨line :: pre, l0, post, q0, by simp [he],
            fun l hl => by
              rcases List.mem_cons.mp hl with h | h
              · subst h; simp [isRewritableLine, hp, hs]
              · exact hpre l h,
            hq0, hb0, hs0, by simp [hres]⟩
        · refine ⟨[], line, rest, q, by simp, by simp, hp, hb, hs, ?_⟩
          rw [updateIncludesGo, hp]
          simp only []
          rw [if_pos hb, if_pos (by simpa using hs)]
          simp
      · rw [updateIncludesGo, hp] at hu ⊢
        simp only [] at hu ⊢
        rw [if_neg hb] at hu ⊢
        simp only [keepLine] at hu ⊢
        obtain ⟨pre, l0, post, q0, he, hpre, hq0, hb0, hs0, hres⟩ := ih hu
        exact ⟨line :: pre, l0, post, q0, by simp [he],
          fun l hl => by
            rcases List.mem_cons.mp hl with h | h
            · subst h; simp [isRewritableLine, hp, hb]
            · exact hpre l h,
          hq0, hb0, hs0, by simp [hres]⟩

/-- A content with no rewritable line is returned unchanged with a
no-modification result. -/
theorem updateIncludesGo_of_no_rewritable (base : String) :
    ∀ content : List String, (∀ l ∈ content, isRewritableLine base l = false) →
      updateIncludesGo base content = (content, false) := by
  intro content
  induction content with
  | nil => intro _; rfl
  | cons line rest ih =>
    intro h
    have hline := h line (by simp)
    have hrest := ih fun l hl => h l (by simp [hl])
    rcases hp : parseQuotedInclude line.data with _ | q
    · rw [updateIncludesGo, hp]
      simp [keepLine, hrest]
    · rw [updateIncludesGo, hp]
      simp only []
      by_cases hb : basenameOf ⟨q.path⟩ = base
      · rw [if_pos hb]
        have hs : ¬ stripStr line ≠ stripStr ⟨flattenLine q base⟩ := by
          intro hc
          rw [isRewritableLine, hp] at hline
          simp [hb, hc] at hline
        rw [if_neg hs]
        simp [keepLine, hrest]
      · rw [if_neg hb]
        simp [keepLine, hrest]

/-- `takeWhile` of an all-satisfying list is the list. -/
theorem takeWhile_eq_self_of_pred (p : Char → Bool) (l : List Char)
    (h : ∀ a ∈ l, p a = true) : l.takeWhile p = l := by
  induction l with
  | nil => rfl
  | cons a l ih =>
    rw [List.takeWhile_cons_of_pos (h a (by simp))]
    rw [ih fun x hx => h x (by simp [hx])]

/-- A name without separators is its own basename. -/
theorem basenameOf_eq_self (s : String) (h : ∀ c ∈ s.data, c ≠ '/') :
    basenameOf s = s := by
  unfold basenameOf
  rw [takeWhile_eq_self_of_pred _ _
    (fun a ha => by simpa using h a (List.mem_reverse.mp ha))]
  simp

/-- Structural facts recovered from a successful quoted-include match:
both whitespace groups are genuine whitespace and the second is
nonempty. -/
theorem parseQuotedInclude_shape (line : List Char) (q : QIncl)
    (h : parseQuotedInclude line = some q) :
    (∀ c ∈ q.ws1, isPySpace c = true) ∧ (∀ c ∈ q.ws2, isPySpace c = true) ∧
      q.ws2 ≠ [] := by
  simp only [parseQuotedInclude] at h
  split at h
  · split at h
    · simp at h
    · rename_i h2
      split at h
      · split at h
        · split at h
          · simp only [Option.some.injEq] at h
            subst h
            exact ⟨fun c hc => pred_of_mem_takeWhile hc,
              fun c hc => pred_of_mem_takeWhile hc, h2⟩
          · simp at h
        · simp at h
      · simp at h
  · simp at h

/-- Re-parsing a flattened include line succeeds and captures exactly the
flattened base name as the path, with nothing after the closing quote. -/
theorem parse_flattenLine (line : List Char) (q : QIncl) (base : String)
    (h : parseQuotedInclude line = some q)
    (hg : ∀ c ∈ base.data, c ≠ '>') (hne : base.data ≠ []) :
    parseQuotedInclude (flattenLine q base) = some ⟨q.ws1, q.ws2, base.data, []⟩ := by
  obtain ⟨hw1, hw2, hne2⟩ := parseQuotedInclude_shape line q h
  have hshape : flattenLine q base
      = q.ws1 ++ ("#include".data ++ (q.ws2 ++ ('"' :: (base.data ++ ['"'])))) := by
    simp [flattenLine, qinclPre]
  have hdata : "#include".data = ['#', 'i', 'n', 'c', 'l', 'u', 'd', 'e'] := rfl
  rw [hshape]
  simp only [parseQuotedInclude]
  rw [takeWhile_append_block q.ws1 _ hw1
    (fun c hc => by
      simp only [hdata, List.cons_append, List.head?_cons, Option.some.injEq] at hc
      subst hc
      decide)]
  rw [List.drop_left]
  rw [if_pos (litPre_self_append _ _)]
  rw [List.drop_left]
  rw [takeWhile_append_block q.ws2 _ hw2
    (fun c hc => by
      simp only [List.head?_cons, Option.some.injEq] at hc
      subst hc
      decide)]
  rw [if_neg hne2]
  rw [List.drop_left]
  simp only []
  rw [takeWhile_eq_self_of_pred _ (base.data ++ ['"'])
    (fun a ha => by
      rcases List.mem_append.mp ha with h1 | h1
      · simpa using hg a h1
      · simp at h1; subst h1; decide)]
  rw [lastQuotePos_append_quote]
  simp only []
  rw [if_pos (by
    have := List.length_pos.mpr hne
    omega)]
  rw [List.take_left]
  have hlen : base.data.length + 1 = (base.data ++ ['"']).length := by simp
  rw [hlen, List.drop_length]

/-- A rewritable line is in particular a matching quoted directive. -/
theorem matchesBase_of_isRewritableLine (base l : String)
    (h : isRewritableLine base l = true) : matchesBase base l = true := by
  unfold isRewritableLine at h
  unfold matchesBase
  rcases hp : parseQuotedInclude l.data with _ | q <;> rw [hp] at h
  · simp at h
  · simp only [Bool.and_eq_true] at h
    exact h.1

/-- C3 counterexample: the claim says the first `#include` directive,
quoted or angle-bracket, whose basename matches is rewritten to the
flattened quoted form.  On a file whose first (and only) matching
directive uses angle brackets, `update_includes` rewrites nothing and
reports no modification — the pattern `^(\s*#include\s+")` only ever
matches quoted directives. -/
theorem update_includes_skips_angle_directive :
    updateIncludes ["#include <util.h>"] "util.h" = (["#include <util.h>"], false)
    ∧ updateIncludes ["#include <util.h>"] "util.h"
        ≠ (["#include \"util.h\""], true) := by
  exact ⟨by decide, by decide⟩

/-- C3 (amended): for every staged file and missing basename,
`update_includes` rewrites only the first *quoted* `#include` directive
whose referenced basename equals the target and whose flattened form
differs from the original line; every line before it is not rewritable
(angle-bracket directives never are, and already-flattened quoted
directives are skipped), every line after it — including further
directives with the same basename — is left unchanged, and when no such
directive exists the file is unchanged and no modification is
reported. -/
theorem update_includes_first_quoted_rewritable_only
    (content : List String) (base : String) :
    ((updateIncludes content base).2 = false →
        (updateIncludes content base).1 = content ∧
          ∀ l ∈ content, isRewritableLine base l = false)
    ∧ ((updateIncludes content base).2 = true →
        ∃ pre line post q,
          content = pre ++ line :: post ∧
          (∀ l ∈ pre, isRewritableLine base l = false) ∧
          parseQuotedInclude line.data = some q ∧
          basenameOf ⟨q.path⟩ = base ∧
          stripStr line ≠ stripStr ⟨flattenLine q base⟩ ∧
          (updateIncludes content base).1
            = pre ++ (⟨flattenLine q base⟩ : String) :: post) :=
  ⟨updateIncludesGo_false base content, updateIncludesGo_true base content⟩

/-- C3 witness: the amended theorem applied to a file whose first
directive is angle-bracketed and whose two later quoted directives share
the target basename — only the first quoted one is rewritten. -/
theorem update_includes_first_quoted_rewritable_only_witness :
    ∃ pre line post q,
      (["#include <util.h>", "#include \"a/util.h\"", "#include \"b/util.h\""]
        : List String) = pre ++ line :: post ∧
      (∀ l ∈ pre, isRewritableLine "util.h" l = false) ∧
      parseQuotedInclude line.data = some q ∧
      basenameOf ⟨q.path⟩ = "util.h" ∧
      stripStr line ≠ stripStr ⟨flattenLine q "util.h"⟩ ∧
      (updateIncludes
          ["#include <util.h>", "#include \"a/util.h\"", "#include \"b/util.h\""]
          "util.h").1
        = pre ++ (⟨flattenLine q "util.h"⟩ : String) :: post :=
  (update_includes_first_quoted_rewritable_only
    ["#include <util.h>", "#include \"a/util.h\"", "#include \"b/util.h\""]
    "util.h").2 (by decide)

/-- C8 counterexample: the claim says a second invocation for an
already-flattened target changes nothing and reports no modification.
When the file contains a second quoted directive with the same basename,
the first call flattens only the first directive, and the second call
rewrites the second one and reports a modification again. -/
theorem update_includes_second_call_rewrites_again :
    updateIncludes ["#include \"a/util.h\"", "#include \"b/util.h\""] "util.h"
      = (["#include \"util.h\"", "#include \"b/util.h\""], true)
    ∧ updateIncludes ["#include \"util.h\"", "#include \"b/util.h\""] "util.h"
      = (["#include \"util.h\"", "#include \"util.h\""], true) := by
  exact ⟨by decide, by decide⟩

/-- C8 (amended): the rewrite is idempotent when the flattened target
was the only quoted directive referencing the basename: if the file
contains at most one quoted `#include` whose basename equals the target
(and the target is a genuine basename: nonempty, no `/`, no `>`), a
second invocation leaves the result of the first unchanged and reports
no modification. -/
theorem update_includes_idempotent_on_single_directive
    (content : List String) (base : String)
    (hcount : content.countP (matchesBase base) ≤ 1)
    (hg : ∀ c ∈ base.data, c ≠ '>')
    (hne : base.data ≠ []) :
    updateIncludes (updateIncludes content base).1 base
      = ((updateIncludes content base).1, false) := by
  unfold updateIncludes
  by_cases hu : (updateIncludesGo base content).2 = true
  · obtain ⟨pre, line, post, q, he, hpre, hq, hb, hs, hres⟩ :=
      updateIncludesGo_true base content hu
    have hline_matches : matchesBase base line = true := by
      unfold matchesBase
      rw [hq]
      simp [hb]
    have hcount2 : (pre.countP (matchesBase base)) = 0 ∧
        (post.countP (matchesBase base)) = 0 := by
      rw [he] at hcount
      rw [List.countP_append, List.countP_cons, hline_matches] at hcount
      simp at hcount
      omega
    have hpre0 : ∀ l ∈ pre, isRewritableLine base l = false := by
      intro l hl
      by_contra hc
      have : matchesBase base l = true :=
        matchesBase_of_isRewritableLine base l (by simpa using hc)
      have := List.countP_eq_zero.mp hcount2.1 l hl
      simp_all
    have hpost0 : ∀ l ∈ post, isRewritableLine base l = false := by
      intro l hl
      by_contra hc
      have : matchesBase base l = true :=
        matchesBase_of_isRewritableLine base l (by simpa using hc)
      have := List.countP_eq_zero.mp hcount2.2 l hl
      simp_all
    have hflat : isRewritableLine base ⟨flattenLine q base⟩ = false := by
      unfold isRewritableLine
      have hp2 := parse_flattenLine line.data q base hq hg hne
      rw [show (⟨flattenLine q base⟩ : String).data = flattenLine q base from rfl]
      rw [hp2]
      simp only []
      have hq' : flattenLine (⟨q.ws1, q.ws2, base.data, []⟩ : QIncl) base
          = flattenLine q base := rfl
      rw [hq']
      simp
    rw [hres]
    exact updateIncludesGo_of_no_rewritable base _ (by
      intro l hl
      rcases List.mem_append.mp hl with h1 | h1
      · exact hpre0 l h1
      · rcases List.mem_cons.mp h1 with h2 | h2
        · subst h2; exact hflat
        · exact hpost0 l h2)
  · have hu2 : (updateIncludesGo base content).2 = false := by simpa using hu
    obtain ⟨h1, h2⟩ := updateIncludesGo_false base content hu2
    rw [h1]
    exact updateIncludesGo_of_no_rewritable base content h2

/-- C8 witness: the idempotence theorem applied to a file with a single
matching quoted directive. -/
theorem update_includes_idempotent_on_single_directive_witness :
    updateIncludes (updateIncludes ["#include \"a/util.h\"", "int x;"] "util.h").1
        "util.h"
      = ((updateIncludes ["#include \"a/util.h\"", "int x;"] "util.h").1, false) :=
  update_includes_idempotent_on_single_directive
    ["#include \"a/util.h\"", "int x;"] "util.h"
    (by decide) (by decide) (by decide)

/-- `find?` of an equality test finds the sought element when present. -/
theorem find?_eq_self_of_mem (l : List String) (a : String) (h : a ∈ l) :
    l.find? (fun x => x = a) = some a := by
  induction l with
  | nil => simp at h
  | cons b l ih =>
    by_cases hb : b = a
    · subst hb; simp [List.find?]
    · rw [List.find?]
      rw [decide_eq_false hb]
      simp only []
      refine ih ?_
      rcases List.mem_cons.mp h with h1 | h1
      · exact absurd h1.symm hb
      · exact h1

/-- C2 counterexample: with two candidates for `util.h`, neither in the
requesting file's directory, and file sizes 10 bytes for the first and
500 bytes for the second, the claim's size rule selects the 500-byte
candidate; `find_file_from_map` ignores file sizes entirely and returns
the first candidate in map (project-scan) order, the 10-byte file. -/
theorem candidate_selector_not_largest :
    findFileFromMap "util.h" "/proj/z/a.c"
        [("util.h", ["/proj/x/util.h", "/proj/y/util.h"])] (fun _ => false)
      = some "/proj/x/util.h"
    ∧ (fun p => if p = "/proj/y/util.h" then (500 : Nat) else 10) "/proj/x/util.h"
        < (fun p => if p = "/proj/y/util.h" then (500 : Nat) else 10) "/proj/y/util.h"
    ∧ ("/proj/x/util.h" : String) ≠ "/proj/y/util.h" := by
  exact ⟨by decide, by decide, by decide⟩

/-- C2 (amended): `find_file_from_map` applies its rules in order, first
match wins: (1) a missing reference containing a path separator that
resolves, relative to the requesting file's directory, to an existing
file is selected; (2) otherwise, among the FileIndex candidates for the
basename, one located in the requesting file's directory is selected if
present; (3) otherwise the *first* candidate in the index's stored
(project-scan) order is selected — not the largest by file size.  The
last conjunct is the claim's scenario: with a 500-byte `util.h`
elsewhere listed first and a 10-byte `util.h` in the requester's
directory, the same-directory file wins. -/
theorem find_file_from_map_policy :
    (∀ (fn ff : String) (fileMap : List (String × List String)) (fs : String → Bool),
        hasSep fn = true → fs (joinPath (dirnameOf ff) fn) = true →
        findFileFromMap fn ff fileMap fs = some (joinPath (dirnameOf ff) fn))
    ∧ (∀ (fn ff : String) (fileMap : List (String × List String)) (fs : String → Bool)
          (ps : List String),
        (hasSep fn && fs (joinPath (dirnameOf ff) fn)) = false →
        lookupAssoc fileMap (basenameOf fn) = some ps →
        joinPath (dirnameOf ff) (basenameOf fn) ∈ ps →
        findFileFromMap fn ff fileMap fs
          = some (joinPath (dirnameOf ff) (basenameOf fn)))
    ∧ (∀ (fn ff : String) (fileMap : List (String × List String)) (fs : String → Bool)
          (p : String) (rest : List String),
        (hasSep fn && fs (joinPath (dirnameOf ff) fn)) = false →
        lookupAssoc fileMap (basenameOf fn) = some (p :: rest) →
        joinPath (dirnameOf ff) (basenameOf fn) ∉ p :: rest →
        findFileFromMap fn ff fileMap fs = some p)
    ∧ findFileFromMap "util.h" "/proj/a.c"
        [("util.h", ["/proj/lib/util.h", "/proj/util.h"])] (fun _ => false)
        = some "/proj/util.h" := by
  refine ⟨?_, ?_, ?_, by decide⟩
  · intro fn ff fileMap fs h1 h2
    simp only [findFileFromMap]
    rw [if_pos (by rw [h1, h2]; rfl)]
  · intro fn ff fileMap fs ps hcond hlookup hmem
    simp only [findFileFromMap]
    rw [if_neg (by simp [hcond])]
    rw [hlookup]
    rcases ps with _ | ⟨p, rest⟩
    · simp at hmem
    · rcases rest with _ | ⟨p2, rest2⟩
      · simp only []
        rcases List.mem_cons.mp hmem with h1 | h1
        · rw [h1]
        · simp at h1
      · simp only []
        rw [find?_eq_self_of_mem _ _ hmem]
  · intro fn ff fileMap fs p rest hcond hlookup hnmem
    simp only [findFileFromMap]
    rw [if_neg (by simp [hcond])]
    rw [hlookup]
    rcases rest with _ | ⟨p2, rest2⟩
    · rfl
    · simp only []
      rw [List.find?_eq_none.mpr (fun x hx => by
        simp only [decide_eq_true_eq]
        intro hxe
        exact hnmem (hxe ▸ hx))]

/-- C2 witness: the same-directory rule applied at concrete inputs. -/
theorem find_file_from_map_policy_witness :
    findFileFromMap "util.h" "/d/a.c" [("util.h", ["/x/util.h", "/d/util.h"])]
        (fun _ => false)
      = some (joinPath (dirnameOf "/d/a.c") (basenameOf "util.h")) :=
  find_file_from_map_policy.2.1 "util.h" "/d/a.c"
    [("util.h", ["/x/util.h", "/d/util.h"])] (fun _ => false)
    ["/x/util.h", "/d/util.h"] (by decide) (by decide) (by decide)

/-- Enumeration of the Python whitespace class. -/
theorem isPySpace_char_cases (c : Char) (h : isPySpace c = true) :
    c = ' ' ∨ c = '\t' ∨ c = '\n' ∨ c = '\r' ∨ c = Char.ofNat 12 ∨ c = Char.ofNat 11 := by
  unfold isPySpace at h
  simp only [Bool.or_eq_true, decide_eq_true_eq] at h
  tauto

/-- Whitespace characters are not digits. -/
theorem not_digit_of_pySpace (c : Char) (h : isPySpace c = true) :
    c.isDigit = false := by
  rcases isPySpace_char_cases c h with h1 | h1 | h1 | h1 | h1 | h1 <;> subst h1 <;> decide

/-- Digits are not whitespace. -/
theorem not_pySpace_of_digit (c : Char) (h : c.isDigit = true) :
    isPySpace c = false := by
  cases hx : isPySpace c
  · rfl
  · rw [not_digit_of_pySpace c hx] at h
    simp at h

/-- Whitespace characters are not `'l'`. -/
theorem pySpace_ne_l (c : Char) (h : isPySpace c = true) : ('l' : Char) ≠ c := by
  rcases isPySpace_char_cases c h with h1 | h1 | h1 | h1 | h1 | h1 <;> subst h1 <;> decide

/-- A matched literal is an actual prefix. -/
theorem litPre_exists (p : List Char) :
    ∀ l : List Char, litPre p l = true → ∃ t, l = p ++ t := by
  induction p with
  | nil => intro l _; exact ⟨l, rfl⟩
  | cons c cs ih =>
    intro l h
    cases l with
    | nil => simp [litPre] at h
    | cons a l =>
      simp only [litPre, Bool.and_eq_true, decide_eq_true_eq] at h
      obtain ⟨t, ht⟩ := ih l h.2
      exact ⟨t, by simp [h.1, ht]⟩

/-- Structural facts recovered from a successful `\s+\d+\s+"` match: the
consumed text is whitespace, digits, whitespace, quote, with each block
nonempty and of the right character class. -/
theorem markerTail_shape (l : List Char) (consumed r : List Char)
    (h : markerTail l = some (consumed, r)) :
    ∃ ws1 ds ws2, consumed = ws1 ++ ds ++ ws2 ++ ['"']
      ∧ (∀ c ∈ ws1, isPySpace c = true) ∧ ws1 ≠ []
      ∧ (∀ c ∈ ds, c.isDigit = true) ∧ ds ≠ []
      ∧ (∀ c ∈ ws2, isPySpace c = true) ∧ ws2 ≠ [] := by
  simp only [markerTail] at h
  split at h
  · simp at h
  · rename_i hws1
    split at h
    · simp at h
    · rename_i hds
      split at h
      · simp at h
      · rename_i hws2
        split at h
        · rename_i r0 heq
          simp only [Option.some.injEq, Prod.mk.injEq] at h
          exact ⟨_, _, _, h.1.symm,
            fun c hc => pred_of_mem_takeWhile hc, hws1,
            fun c hc => pred_of_mem_takeWhile hc, hds,
            fun c hc => pred_of_mem_takeWhile hc, hws2⟩
        · simp at h

/-- `markerTail` re-parses its own consumed text, whatever follows. -/
theorem markerTail_rebuild (l : List Char) (consumed r X : List Char)
    (h : markerTail l = some (consumed, r)) :
    markerTail (consumed ++ X) = some (consumed, X) := by
  obtain ⟨ws1, ds, ws2, hc, hw1, hn1, hd, hnd, hw2, hn2⟩ :=
    markerTail_shape l consumed r h
  subst hc
  rcases hds : ds with _ | ⟨d0, ds'⟩
  · exact absurd hds hnd
  · rcases hws2 : ws2 with _ | ⟨w0, ws2'⟩
    · exact absurd hws2 hn2
    · subst hds hws2
      simp only [markerTail]
      have hassoc : ws1 ++ d0 :: ds' ++ (w0 :: ws2') ++ ['"'] ++ X
          = ws1 ++ ((d0 :: ds') ++ ((w0 :: ws2') ++ ('"' :: X))) := by simp
      rw [hassoc]
      rw [takeWhile_append_block ws1 _ hw1
        (fun c hcc => by
          simp only [List.cons_append, List.head?_cons, Option.some.injEq] at hcc
          subst hcc
          exact not_pySpace_of_digit d0 (hd d0 (by simp)))]
      rw [if_neg hn1]
      rw [List.drop_left]
      rw [takeWhile_append_block (d0 :: ds') _ hd
        (fun c hcc => by
          simp only [List.cons_append, List.head?_cons, Option.some.injEq] at hcc
          subst hcc
          exact not_digit_of_pySpace w0 (hw2 w0 (by simp)))]
      rw [if_neg (by simp)]
      rw [List.drop_left]
      rw [takeWhile_append_block (w0 :: ws2') _ hw2
        (fun c hcc => by
          simp only [List.head?_cons, Option.some.injEq] at hcc
          subst hcc
          decide)]
      rw [if_neg (by simp)]
      rw [List.drop_left]
      simp

/-- Structure of a successful `markerAlt` match. -/
theorem markerAlt_shape (lead rest : List Char) (mm : MarkerMatch)
    (h : markerAlt lead rest = some mm) :
    ∃ consumed r, markerTail rest = some (consumed, r) ∧
      mm.pre = lead ++ consumed ∧ mm.suf.head? = some '"' := by
  simp only [markerAlt] at h
  split at h
  · rename_i consumed r heq
    split at h
    · rename_i hcond
      simp only [Bool.and_eq_true, decide_eq_true_eq] at hcond
      simp only [Option.some.injEq] at h
      subst h
      exact ⟨consumed, r, heq, rfl, hcond.2⟩
    · simp at h
  · simp at h

/-- Structure of a successful `parseLineMarker` match: a lead literal,
a `markerTail` match making up the rest of group 1, and a suffix opening
with the closing quote. -/
theorem parseLineMarker_shape (l : List Char) (mm : MarkerMatch)
    (h : parseLineMarker l = some mm) :
    ∃ lead consumed r rest,
      (lead = "#line".data ∨ lead = ['#']) ∧
      markerTail rest = some (consumed, r) ∧
      mm.pre = lead ++ consumed ∧
      mm.suf.head? = some '"' := by
  simp only [parseLineMarker] at h
  split at h
  · rename_i hlit
    split at h
    · rename_i m hm
      have hmm : m = mm := by simpa using h
      subst hmm
      obtain ⟨consumed, r, h1, h2, h3⟩ := markerAlt_shape _ _ _ hm
      exact ⟨"#line".data, consumed, r, _, Or.inl rfl, h1, h2, h3⟩
    · rename_i hm
      obtain ⟨t, ht⟩ := litPre_exists _ l hlit
      subst ht
      simp only [List.cons_append, List.nil_append] at h
      have hmt : markerTail ('l' :: ('i' :: 'n' :: 'e' :: t)) = none := by
        simp only [markerTail]
        rw [List.takeWhile_cons_of_neg (by decide)]
        simp
      rw [markerAlt, hmt] at h
      simp at h
  · rename_i hlit
    split at h
    · rename_i rest
      obtain ⟨consumed, r, h1, h2, h3⟩ := markerAlt_shape _ _ _ h
      exact ⟨['#'], consumed, r, rest, Or.inr rfl, h1, h2, h3⟩
    · simp at h

/-- A marker line rebuilt from its match groups with a new nonempty,
quote-free path re-parses to exactly those groups. -/
theorem parseLineMarker_rebuild (l : List Char) (mm : MarkerMatch) (p2 : List Char)
    (h : parseLineMarker l = some mm) (hp2 : p2 ≠ [])
    (hq : ∀ c ∈ p2, c ≠ '"') :
    parseLineMarker (mm.pre ++ p2 ++ mm.suf) = some ⟨mm.pre, p2, mm.suf⟩ := by
  obtain ⟨lead, consumed, r, rest, hlead, hmt, hpre, hsuf⟩ := parseLineMarker_shape l mm h
  obtain ⟨ws1, ds, ws2, hc, hw1, hn1, hd, hnd, hw2, hn2⟩ :=
    markerTail_shape rest consumed r hmt
  have hmt2 : markerTail (consumed ++ (p2 ++ mm.suf)) = some (consumed, p2 ++ mm.suf) :=
    markerTail_rebuild rest consumed r _ hmt
  have halt : markerAlt lead (consumed ++ (p2 ++ mm.suf))
      = some ⟨lead ++ consumed, p2, mm.suf⟩ := by
    simp only [markerAlt]
    rw [hmt2]
    simp only []
    rw [takeWhile_append_block p2 mm.suf (fun a ha => by simpa using hq a ha)
      (fun c hcc => by rw [hsuf] at hcc; simp at hcc; subst hcc; decide)]
    rw [List.drop_left]
    rw [if_pos (by rw [hsuf]; simp [hp2])]
  rcases hlead with hA | hB
  · subst hA
    rw [hpre]
    have hassoc : ("#line".data ++ consumed) ++ p2 ++ mm.suf
        = "#line".data ++ (consumed ++ (p2 ++ mm.suf)) := by simp
    rw [hassoc]
    simp only [parseLineMarker]
    rw [if_pos (litPre_self_append _ _)]
    rw [List.drop_left]
    rw [halt]
  · subst hB
    rw [hpre]
    have hassoc : (['#'] ++ consumed) ++ p2 ++ mm.suf
        = '#' :: (consumed ++ (p2 ++ mm.suf)) := by simp
    rw [hassoc]
    rcases hws1 : ws1 with _ | ⟨w0, ws1t⟩
    · exact absurd hws1 hn1
    · have hcons : consumed ++ (p2 ++ mm.suf)
          = w0 :: (ws1t ++ ds ++ ws2 ++ ['"'] ++ (p2 ++ mm.suf)) := by
        subst hc
        simp [hws1]
      have hw0 : isPySpace w0 = true := hw1 w0 (by simp [hws1])
      have hlne : ('l' : Char) ≠ w0 := pySpace_ne_l w0 hw0
      have hlitf : litPre "#line".data ('#' :: (consumed ++ (p2 ++ mm.suf))) = false := by
        rw [hcons]
        have hdata : "#line".data = ['#', 'l', 'i', 'n', 'e'] := rfl
        rw [hdata]
        simp [litPre, hlne]
      simp only [parseLineMarker]
      rw [if_neg (by simp [hlitf])]
      exact halt

/-- Escaping a nonempty string yields a nonempty string. -/
theorem escapeBackslash_ne_empty (v : String) (h : v ≠ "") :
    (escapeBackslash v).data ≠ [] := by
  unfold escapeBackslash
  rcases hv : v.data with _ | ⟨c, cs⟩
  · exfalso
    apply h
    cases v with
    | mk d =>
      simp only at hv
      rw [hv]
  · by_cases hc : c = '\\' <;> simp [hc]

/-- C6 counterexample: the final artifact can retain a Workspace path in
a location marker.  The map holds only the paths this unit staged; a
marker naming a workspace file that is not a key of the map (for
example, a header left in the shared temp directory by an earlier unit
and picked up by `cpp -I temp_dir`) is left verbatim — the function's
explicit `Skipped (not in map)` branch — so the emitted artifact still
names the `/dev/shm/...` workspace path, contradicting the claim that
every marker names an original project path. -/
theorem replace_temp_paths_keeps_unmapped_workspace_marker :
    replaceTempPaths "# 1 \"/dev/shm/pre/x.h\" 1\nint u;\n"
        [("/dev/shm/pre/a.c", "/proj/a.c")]
      = "# 1 \"/dev/shm/pre/x.h\" 1\nint u;\n"
    ∧ parseLineMarker ("# 1 \"/dev/shm/pre/x.h\" 1").data
        = some ⟨"# 1 \"".data, "/dev/shm/pre/x.h".data, "\" 1".data⟩
    ∧ litPre "/dev/shm/".data "/dev/shm/pre/x.h".data = true := by
  exact ⟨by decide, by decide, by decide⟩

/-- C6 (amended): `replace_temp_paths_in_output` substitutes the
original path (backslash-escaped) for the workspace path of every
location marker whose path is a key of the unit's PathMap, and leaves
every other line — markers with unmapped paths included — verbatim;
consequently (last conjunct, under the sanity conditions that mapped
originals are nonempty, contain no quote after escaping, and are not
themselves map keys) no marker of the emitted line list names a mapped
workspace path.  Markers whose workspace paths were never recorded in
the PathMap may survive, as the counterexample shows. -/
theorem replace_temp_paths_mapped_markers_only :
    (∀ (m : List (String × String)) (line : String) (mm : MarkerMatch) (v : String),
        parseLineMarker line.data = some mm → lookupAssoc m ⟨mm.path⟩ = some v →
        replaceMarkerLine m line = ⟨mm.pre ++ (escapeBackslash v).data ++ mm.suf⟩)
    ∧ (∀ (m : List (String × String)) (line : String) (mm : MarkerMatch),
        parseLineMarker line.data = some mm → lookupAssoc m ⟨mm.path⟩ = none →
        replaceMarkerLine m line = line)
    ∧ (∀ (m : List (String × String)) (line : String),
        parseLineMarker line.data = none → replaceMarkerLine m line = line)
    ∧ (∀ (m : List (String × String)) (lines : List String),
        (∀ k v, lookupAssoc m k = some v →
          v ≠ "" ∧ (∀ c ∈ (escapeBackslash v).data, c ≠ '"') ∧
            lookupAssoc m (escapeBackslash v) = none) →
        ∀ line ∈ replaceTempPathsLines lines m,
          ∀ mm : MarkerMatch, parseLineMarker line.data = some mm →
            lookupAssoc m ⟨mm.path⟩ = none) := by
  refine ⟨?_, ?_, ?_, ?_⟩
  · intro m line mm v h1 h2
    simp only [replaceMarkerLine, h1, h2]
  · intro m line mm h1 h2
    simp only [replaceMarkerLine, h1, h2]
  · intro m line h1
    simp only [replaceMarkerLine, h1]
  · intro m lines hm line hline mm hparse
    simp only [replaceTempPathsLines, List.mem_map] at hline
    obtain ⟨l0, hl0, hrepl⟩ := hline
    rcases hp0 : parseLineMarker l0.data with _ | mm0
    · have hid : replaceMarkerLine m l0 = l0 := by
        simp only [replaceMarkerLine, hp0]
      rw [hid] at hrepl
      subst hrepl
      rw [hp0] at hparse
      cases hparse
    · rcases hl : lookupAssoc m ⟨mm0.path⟩ with _ | v
      · have hid : replaceMarkerLine m l0 = l0 := by
          simp only [replaceMarkerLine, hp0, hl]
        rw [hid] at hrepl
        subst hrepl
        rw [hp0] at hparse
        injection hparse with he
        subst he
        exact hl
      · obtain ⟨hv1, hv2, hv3⟩ := hm _ v hl
        have hrepl2 : replaceMarkerLine m l0
            = ⟨mm0.pre ++ (escapeBackslash v).data ++ mm0.suf⟩ := by
          simp only [replaceMarkerLine, hp0, hl]
        rw [hrepl2] at hrepl
        subst hrepl
        have hreb := parseLineMarker_rebuild l0.data mm0 (escapeBackslash v).data hp0
          (escapeBackslash_ne_empty v hv1) hv2
        rw [show ((⟨mm0.pre ++ (escapeBackslash v).data ++ mm0.suf⟩ : String)).data
            = mm0.pre ++ (escapeBackslash v).data ++ mm0.suf from rfl] at hparse
        rw [hreb] at hparse
        injection hparse with he
        subst he
        exact hv3

/-- C6 witness: a mapped marker rewritten to the original path. -/
theorem replace_temp_paths_mapped_markers_only_witness :
    replaceMarkerLine [("/dev/shm/pre/a.c", "/proj/a.c")] "# 1 \"/dev/shm/pre/a.c\" 2"
      = ⟨"# 1 \"".data ++ (escapeBackslash "/proj/a.c").data ++ "\" 2".data⟩ :=
  replace_temp_paths_mapped_markers_only.1 [("/dev/shm/pre/a.c", "/proj/a.c")]
    "# 1 \"/dev/shm/pre/a.c\" 2"
    ⟨"# 1 \"".data, "/dev/shm/pre/a.c".data, "\" 2".data⟩
    "/proj/a.c" (by decide) (by decide)

/-! ## Theorems about the `preprocess_file` resolution loop -/

/-- One unfolding of the bounded loop. -/
theorem loopGo_succ (env : WEnv) (fuel : Nat) (s : WState) (tr : List Probe) :
    loopGo env (fuel + 1) s tr = loopBody env (loopGo env fuel) s tr := rfl

/-- The iteration budget in successor form. -/
theorem maxIterations_succ : maxIterations = 4999 + 1 := rfl

/-- A present key stays present under any `setAssoc`. -/
theorem lookupAssoc_ne_none_setAssoc {α : Type} (l : List (String × α))
    (k k2 : String) (v : α) (h : lookupAssoc l k ≠ none) :
    lookupAssoc (setAssoc l k2 v) k ≠ none := by
  rw [lookupAssoc_setAssoc]
  by_cases hk : k = k2 <;> simp [hk, h]

/-- Staging does not change the iteration counter. -/
theorem stage_count (env : WEnv) (s : WState) (base src : String) :
    (stage env s base src).count = s.count := by
  unfold stage
  split
  · simp only []
    split <;> rfl
  · rfl

/-- Staging never removes a staged file. -/
theorem stage_lookup_ne_none (env : WEnv) (s : WState) (base src k : String)
    (h : lookupAssoc s.tempDir k ≠ none) :
    lookupAssoc (stage env s base src).tempDir k ≠ none := by
  unfold stage
  split
  · simp only []
    split
    · exact h
    · exact lookupAssoc_ne_none_setAssoc s.tempDir k base (env.orig src) h
  · exact lookupAssoc_ne_none_setAssoc s.tempDir k base (env.orig src) h

/-- C4: a probe classifying the missing header as a system header is
terminal for the unit: the outcome is the missing-system-header failure,
the workspace still contains only the unit itself (nothing was staged,
no candidate was consulted), the PathMap still holds only the unit's own
entry, and no further probe is consumed (the whole remaining trace is
returned). -/
theorem system_header_probe_terminal (env : WEnv) (mc : List String)
    (name : String) (inc : Option String) (rest : List Probe) :
    preprocessFile env mc (Probe.err (some ⟨name, true, inc⟩) :: rest)
      = (WOutcome.failed (WFail.systemHeader name),
         ⟨[(env.mainName, mc)], [(tempPath env env.mainName, env.origMainPath)], 1⟩,
         rest) := by
  have h1 : loopGo env maxIterations (initState env mc)
        (Probe.err (some ⟨name, true, inc⟩) :: rest)
      = ⟨WExit.earlyFail (WFail.systemHeader name),
         ⟨[(env.mainName, mc)], [(tempPath env env.mainName, env.origMainPath)], 1⟩,
         rest⟩ := by
    rw [maxIterations_succ, loopGo_succ]
    unfold loopBody
    simp [initState]
  simp only [preprocessFile, h1]

/-- At most `fuel` probes are consumed by the bounded loop. -/
theorem loopGo_consumption (env : WEnv) :
    ∀ (fuel : Nat) (s : WState) (tr : List Probe),
      tr.length ≤ (loopGo env fuel s tr).rest.length + fuel := by
  intro fuel
  induction fuel with
  | zero => intro s tr; simp [loopGo]
  | succ fuel ih =>
    intro s tr
    rw [loopGo_succ]
    unfold loopBody
    rcases tr with _ | ⟨p, rest⟩
    · simp
    · rcases p with _ | info
      · simp only [List.length_cons]
        omega
      · rcases info with _ | info2
        · simp only [List.length_cons]
          omega
        · simp only [List.length_cons]
          split
          · simp only []
            omega
          · split
            · simp only []
              omega
            · split
              · simp only []
                omega
              · split
                · simp only []
                  omega
                · exact Nat.succ_le_succ (ih _ rest)

/-- On a run of progressing probes the loop completes full iterations:
as long as the staged unit remains present (it always does), `fuel`
iterations consume `fuel` probes and raise the counter by `fuel`,
exiting through the exhausted `while` condition. -/
theorem loopGo_progressing (env : WEnv) :
    ∀ (fuel : Nat) (s : WState) (tr : List Probe),
      lookupAssoc s.tempDir env.mainName ≠ none →
      (∀ p ∈ tr.take fuel, progressingProbe env p) →
      fuel ≤ tr.length →
      (loopGo env fuel s tr).exit = WExit.normalExit ∧
      (loopGo env fuel s tr).state.count = s.count + fuel := by
  intro fuel
  induction fuel with
  | zero => intro s tr _ _ _; simp [loopGo]
  | succ fuel ih =>
    intro s tr hinv hprog hlen
    rcases tr with _ | ⟨p, rest⟩
    · simp at hlen
    · obtain ⟨mfile, inc, src, hpe, hbn, hfind⟩ :=
        hprog p (by simp [List.take_succ_cons])
      subst hpe
      rw [loopGo_succ]
      unfold loopBody
      simp only []
      rcases hlk : lookupAssoc s.tempDir env.mainName with _ | cont0
      · exact absurd hlk hinv
      · rw [hbn, hlk]
        simp only []
        rw [hfind]
        simp only []
        rcases hlk2 : lookupAssoc
            (stage env { s with count := s.count + 1 } (basenameOf mfile) src).tempDir
            env.mainName with _ | cont1
        · exact absurd hlk2 (stage_lookup_ne_none env _ _ _ _ (by
            simp only []
            rw [hlk]
            simp))
        · simp only []
          have key : ∀ S : WState, lookupAssoc S.tempDir env.mainName ≠ none →
              S.count = s.count + 1 →
              (loopGo env fuel S rest).exit = WExit.normalExit ∧
              (loopGo env fuel S rest).state.count = s.count + (fuel + 1) := by
            intro S hS1 hS2
            obtain ⟨a, b⟩ := ih S rest hS1
              (fun p2 hp2 => hprog p2 (by
                simp only [List.take_succ_cons, List.mem_cons]
                exact Or.inr hp2))
              (by simpa using Nat.le_of_succ_le_succ hlen)
            exact ⟨a, by omega⟩
          apply key
          · split
            · simp only []
              exact lookupAssoc_ne_none_setAssoc _ _ _ _ (by rw [hlk2]; simp)
            · rw [hlk2]
              simp
          · split
            · simp only []
              rw [stage_count]
            · rw [stage_count]

/-- C5: the resolution loop is budget-bounded.  First conjunct: on any
probe trace at most `max_iterations` (5000) probes are consumed, so the
loop terminates on every input.  Second conjunct: when the first 5000
probes all make progress (each reports a fresh-or-repeated project
header that stages successfully — the cycle guard never fires because
this variant has none), the unit's outcome is the iteration-budget
failure. -/
theorem resolution_loop_budget :
    (∀ (env : WEnv) (mc : List String) (tr : List Probe),
        tr.length ≤ (preprocessFile env mc tr).2.2.length + maxIterations)
    ∧ (∀ (env : WEnv) (mc : List String) (tr : List Probe),
        (∀ p ∈ tr.take maxIterations, progressingProbe env p) →
        maxIterations ≤ tr.length →
        (preprocessFile env mc tr).1 = WOutcome.budgetExceeded) := by
  constructor
  · intro env mc tr
    have h := loopGo_consumption env maxIterations (initState env mc) tr
    have hrest : (preprocessFile env mc tr).2.2
        = (loopGo env maxIterations (initState env mc) tr).rest := by
      unfold preprocessFile
      simp only []
      split <;> (try split) <;> rfl
    rw [hrest]
    exact h
  · intro env mc tr hprog hlen
    obtain ⟨he, hc⟩ := loopGo_progressing env maxIterations (initState env mc) tr
      (by simp [initState, lookupAssoc]) hprog hlen
    unfold preprocessFile
    rcases hr : loopGo env maxIterations (initState env mc) tr with ⟨ex, st, rest⟩
    rw [hr] at he hc
    simp only [] at he hc
    subst he
    simp only []
    rw [if_pos (by rw [hc]; simp [initState])]

/-- C5 witness: a trace of 5000 identical progressing probes drives the
concrete environment into the budget-exceeded outcome. -/
theorem resolution_loop_budget_witness :
    (preprocessFile envA ["int x;"]
        (List.replicate 5000 (Probe.err (some ⟨"util.h", false, some "a.c"⟩)))).1
      = WOutcome.budgetExceeded :=
  resolution_loop_budget.2 envA ["int x;"]
    (List.replicate 5000 (Probe.err (some ⟨"util.h", false, some "a.c"⟩)))
    (fun p hp => by
      have hd := List.eq_of_mem_replicate (List.mem_of_mem_take hp)
      subst hd
      exact ⟨"util.h", "a.c", "/proj/util.h", rfl, by decide, by decide⟩)
    (by rw [List.length_replicate]; exact Nat.le_refl _)

/-- C7 counterexample: a `no modification` result from the rewriter is
not a hard error.  In this run, the staged unit contains no `#include`
at all, so `update_includes` returns `False` for the staged `util.h`;
the loop ignores the result, continues, and the unit even finishes
`Resolved` on the next probe — the claim says processing should have
terminated with a failure. -/
theorem rewriter_noop_not_hard_error :
    preprocessFile envA ["int x;"]
        [Probe.err (some ⟨"util.h", false, some "/proj/a.c"⟩), Probe.ok]
      = (WOutcome.resolved,
         ⟨[("a.c", ["int x;"]), ("util.h", ["int u;"])],
          [("/dev/shm/pre/a.c", "/proj/a.c"), ("/dev/shm/pre/util.h", "/proj/util.h")],
          2⟩,
         [])
    ∧ updateIncludes ["int x;"] "util.h" = (["int x;"], false) := by
  exact ⟨by decide, by decide⟩

/-- C7 (amended): the hard error raised at this point of the loop is the
*unlocatable includer*: when the diagnostic names an includer whose
basename is absent from the Workspace even after staging the found
dependency, the unit fails with the includer-not-found error before the
rewriter is ever invoked, and no further probe is consumed.  (A `False`
return from the rewriter itself is ignored, as the counterexample
shows.) -/
theorem includer_unlocatable_hard_error (env : WEnv) (mc : List String)
    (mfile inc : String) (rest : List Probe) (src : String)
    (hbi : basenameOf inc ≠ env.mainName)
    (hbm : basenameOf inc ≠ basenameOf mfile)
    (hfind : findFileFromMap mfile (tempPath env env.mainName) env.fileMap env.fs
      = some src) :
    (preprocessFile env mc (Probe.err (some ⟨mfile, false, some inc⟩) :: rest)).1
      = WOutcome.failed (WFail.includerNotFound (some inc))
    ∧ (preprocessFile env mc (Probe.err (some ⟨mfile, false, some inc⟩) :: rest)).2.2
      = rest := by
  have hlk1 : lookupAssoc [(env.mainName, mc)] (basenameOf inc) = none := by
    simp only [lookupAssoc]
    rw [if_neg (Ne.symm hbi)]
  have h1 : loopGo env maxIterations (initState env mc)
        (Probe.err (some ⟨mfile, false, some inc⟩) :: rest)
      = ⟨WExit.earlyFail (WFail.includerNotFound (some inc)),
         stage env ⟨[(env.mainName, mc)],
           [(tempPath env env.mainName, env.origMainPath)], 1⟩ (basenameOf mfile) src,
         rest⟩ := by
    rw [maxIterations_succ, loopGo_succ]
    unfold loopBody
    simp only [initState]
    rw [hlk1]
    simp only []
    rw [hfind]
    simp only []
    have hlk2 : lookupAssoc
        (stage env ⟨[(env.mainName, mc)],
          [(tempPath env env.mainName, env.origMainPath)], 1⟩
          (basenameOf mfile) src).tempDir (basenameOf inc) = none := by
      unfold stage
      split
      · simp only []
        split
        · exact hlk1
        · simp only []
          rw [lookupAssoc_setAssoc]
          rw [if_neg hbm]
          exact hlk1
      · rw [if_neg (by simp)]
        simp only []
        rw [lookupAssoc_setAssoc]
        rw [if_neg hbm]
        exact hlk1
    rw [hlk2]
    simp
  constructor
  · simp only [preprocessFile, h1]
  · simp only [preprocessFile, h1]

/-- C7 witness: the hard-error theorem at a concrete run where the named
includer was never staged. -/
theorem includer_unlocatable_hard_error_witness :
    (preprocessFile envA ["int x;"]
        [Probe.err (some ⟨"util.h", false, some "/proj/other.c"⟩)]).1
      = WOutcome.failed (WFail.includerNotFound (some "/proj/other.c"))
    ∧ (preprocessFile envA ["int x;"]
        [Probe.err (some ⟨"util.h", false, some "/proj/other.c"⟩)]).2.2
      = [] :=
  includer_unlocatable_hard_error envA ["int x;"] "util.h" "/proj/other.c" []
    "/proj/util.h" (by decide) (by decide) (by decide)

/-! ## Theorems about the `preprocess_project` loop and the batch
drivers -/

/-- Strategy 2 never changes the attempted set it is given. -/
theorem pyStrat2_att (cands : String → List String) (missing : String)
    (att2 : List String) (tr2 : List PyProbe) :
    (∀ e a r, pyStrat2 cands missing att2 tr2 = PyStep.term e a r → a = att2) ∧
    (∀ a r, pyStrat2 cands missing att2 tr2 = PyStep.cont a r → a = att2) := by
  constructor
  · intro e a r h
    unfold pyStrat2 at h
    split at h
    · simp_all
    · split at h <;> simp_all
  · intro a r h
    unfold pyStrat2 at h
    split at h
    · simp_all
    · split at h <;> simp_all

/-- Strategy 1 never changes the attempted set it is given. -/
theorem pyStrat1_att (relExists : String → Bool) (cands : String → List String)
    (missing : String) (att2 : List String) (tr : List PyProbe) :
    (∀ e a r, pyStrat1 relExists cands missing att2 tr = PyStep.term e a r → a = att2) ∧
    (∀ a r, pyStrat1 relExists cands missing att2 tr = PyStep.cont a r → a = att2) := by
  constructor
  · intro e a r h
    unfold pyStrat1 at h
    split at h
    · split at h
      · simp_all
      · simp_all
      · rename_i rr hex
        exact (pyStrat2_att cands missing att2 rr).1 e a r h
      · simp_all
    · exact (pyStrat2_att cands missing att2 tr).1 e a r h
  · intro a r h
    unfold pyStrat1 at h
    split at h
    · split at h
      · simp_all
      · simp_all
      · rename_i rr hex
        exact (pyStrat2_att cands missing att2 rr).2 a r h
      · simp_all
    · exact (pyStrat2_att cands missing att2 tr).2 a r h

/-- One loop step either keeps the attempted set or extends it with one
basename that was not yet attempted. -/
theorem pyLoopStep_att (relExists : String → Bool) (cands : String → List String)
    (p : PyProbe) (tr : List PyProbe) (att : List String) :
    (∀ e a r, pyLoopStep relExists cands p tr att = PyStep.term e a r →
      a = att ∨ ∃ b, b ∉ att ∧ a = b :: att) ∧
    (∀ a r, pyLoopStep relExists cands p tr att = PyStep.cont a r →
      ∃ b, b ∉ att ∧ a = b :: att) := by
  constructor
  · intro e a r h
    unfold pyLoopStep at h
    rcases p with _ | info
    · simp only [PyStep.term.injEq] at h
      exact Or.inl h.2.1.symm
    · rcases info with _ | ⟨missing, isSys⟩
      · simp only [PyStep.term.injEq] at h
        exact Or.inl h.2.1.symm
      · simp only [] at h
        by_cases hb : basenameOf missing ∈ att
        · rw [if_pos hb] at h
          simp only [PyStep.term.injEq] at h
          exact Or.inl h.2.1.symm
        · rw [if_neg hb] at h
          by_cases hs : isSys = true
          · rw [if_pos hs] at h
            simp only [PyStep.term.injEq] at h
            exact Or.inr ⟨basenameOf missing, hb, h.2.1.symm⟩
          · rw [if_neg hs] at h
            have := (pyStrat1_att relExists cands missing (basenameOf missing :: att) tr).1
              e a r h
            exact Or.inr ⟨basenameOf missing, hb, this⟩
  · intro a r h
    unfold pyLoopStep at h
    rcases p with _ | info
    · simp at h
    · rcases info with _ | ⟨missing, isSys⟩
      · simp at h
      · simp only [] at h
        by_cases hb : basenameOf missing ∈ att
        · rw [if_pos hb] at h
          simp at h
        · rw [if_neg hb] at h
          by_cases hs : isSys = true
          · rw [if_pos hs] at h
            simp at h
          · rw [if_neg hs] at h
            have := (pyStrat1_att relExists cands missing (basenameOf missing :: att) tr).2
              a r h
            exact ⟨basenameOf missing, hb, this⟩

/-- The loop preserves distinctness of the attempted set. -/
theorem pyLoopFuel_nodup (relExists : String → Bool) (cands : String → List String) :
    ∀ (fuel : Nat) (tr : List PyProbe) (att : List String), att.Nodup →
      (pyLoopFuel relExists cands fuel tr att).attempted.Nodup := by
  intro fuel
  induction fuel with
  | zero => intro tr att h; simpa [pyLoopFuel] using h
  | succ fuel ih =>
    intro tr att h
    rcases tr with _ | ⟨p, tr⟩
    · simpa [pyLoopFuel] using h
    · simp only [pyLoopFuel]
      rcases hstep : pyLoopStep relExists cands p tr att with ⟨e, a, r⟩ | ⟨a, r⟩
      · simp only []
        rcases (pyLoopStep_att relExists cands p tr att).1 e a r hstep with
          h1 | ⟨b, hb, h1⟩
        · subst h1; exact h
        · subst h1; exact List.nodup_cons.mpr ⟨hb, h⟩
      · simp only []
        apply ih
        rcases (pyLoopStep_att relExists cands p tr att).2 a r hstep with ⟨b, hb, h1⟩
        subst h1
        exact List.nodup_cons.mpr ⟨hb, h⟩

/-- C1: the cycle guard of the resolution loop.  First conjunct: when a
probe reports a missing file whose basename is already in the per-unit
attempted set (the same basename requested a second time), the loop is
terminal in the circular-dependency state immediately — the attempted
set is unchanged and the remaining trace is returned untouched, so no
further probe is issued for the unit.  Second conjunct: the attempted
set stays duplicate-free on every run, i.e. each basename is attempted
at most once per translation unit. -/
theorem cycle_guard_terminal :
    (∀ (relExists : String → Bool) (cands : String → List String)
        (tr : List PyProbe) (att : List String) (missing : String) (isSys : Bool),
        basenameOf missing ∈ att →
        pyLoop relExists cands (PyProbe.err (some (missing, isSys)) :: tr) att
          = ⟨PyExit.cycleFail (basenameOf missing), att, tr⟩)
    ∧ (∀ (relExists : String → Bool) (cands : String → List String)
        (tr : List PyProbe) (att : List String), att.Nodup →
        (pyLoop relExists cands tr att).attempted.Nodup) := by
  constructor
  · intro re ca tr att missing isSys hmem
    have hstep : pyLoopStep re ca (PyProbe.err (some (missing, isSys))) tr att
        = PyStep.term (PyExit.cycleFail (basenameOf missing)) att tr := by
      unfold pyLoopStep
      simp only []
      rw [if_pos hmem]
    unfold pyLoop
    simp only [List.length_cons, pyLoopFuel]
    rw [hstep]
  · intro re ca tr att h
    exact pyLoopFuel_nodup re ca tr.length tr att h

/-- C1 witness: the cycle guard fired at a concrete repeated basename,
and a concrete duplicate-free attempted set kept duplicate-free. -/
theorem cycle_guard_terminal_witness :
    pyLoop (fun _ => false) (fun _ => []) [PyProbe.err (some ("util.h", false))]
        ["util.h"]
      = ⟨PyExit.cycleFail (basenameOf "util.h"), ["util.h"], []⟩
    ∧ (pyLoop (fun _ => false) (fun _ => []) [] ["util.h"]).attempted.Nodup :=
  ⟨cycle_guard_terminal.1 (fun _ => false) (fun _ => []) [] ["util.h"] "util.h" false
      (by decide),
   cycle_guard_terminal.2 (fun _ => false) (fun _ => []) [] ["util.h"] (by decide)⟩

/-- C9 counterexample: in `preprocess_project`, an exception raised
while processing one unit (for example the staging permission
`RuntimeError` of lines 519–525) is re-raised by the handler at lines
868–871 and aborts the whole batch: the run ends in an error and no
count of processed/skipped units is ever produced — the second unit is
never processed. -/
theorem staging_exception_aborts_py_batch :
    preprocessProjectBatch
        [PyUnitRun.raised "PermissionError: staging copy", PyUnitRun.processed] 0 0
      = Except.error "PermissionError: staging copy"
    ∧ ∀ counts : Nat × Nat,
        preprocessProjectBatch
            [PyUnitRun.raised "PermissionError: staging copy", PyUnitRun.processed] 0 0
          ≠ Except.ok counts := by
  refine ⟨rfl, ?_⟩
  intro counts h
  simp [preprocessProjectBatch] at h

/-- C9 (amended): in the mature driver (`process_files` with
`process_file_with_logging`), failures are unit-local: every unit is
visited exactly once whatever the others did — exceptions included,
since the wrapper converts them to a recorded failure — and the final
counters account for the whole batch: successes are exactly the units
whose run succeeded, and successes plus failures equal the number of
units. -/
theorem working_batch_processes_every_unit (units : List UnitRun) :
    (processFiles units).1 = units.countP processFileWithLogging
    ∧ (processFiles units).1 + (processFiles units).2 = units.length := by
  have key : ∀ (us : List UnitRun) (a b : Nat),
      us.foldl
        (fun acc u =>
          if processFileWithLogging u then (acc.1 + 1, acc.2) else (acc.1, acc.2 + 1))
        (a, b)
      = (a + us.countP processFileWithLogging,
         b + us.countP (fun u => ! processFileWithLogging u)) := by
    intro us
    induction us with
    | nil => intro a b; simp
    | cons u us ih =>
      intro a b
      rw [List.foldl_cons]
      by_cases hu : processFileWithLogging u = true
      · rw [if_pos hu, ih, List.countP_cons, List.countP_cons]
        simp [hu]
        omega
      · rw [if_neg hu, ih, List.countP_cons, List.countP_cons]
        simp only [hu]
        simp [Bool.not_eq_true] at hu
        simp [hu]
        omega
  have key2 : ∀ us : List UnitRun,
      us.countP processFileWithLogging + us.countP (fun u => ! processFileWithLogging u)
        = us.length := by
    intro us
    induction us with
    | nil => rfl
    | cons u us ih =>
      rw [List.countP_cons, List.countP_cons]
      by_cases hu : processFileWithLogging u = true <;> simp [hu] <;> omega
  constructor
  · unfold processFiles
    rw [key units 0 0]
    simp
  · unfold processFiles
    rw [key units 0 0]
    simpa using key2 units

/-- C10: when the diagnostic has a `fatal error: <name>: No such file or
directory` line, the `is_system` classification of the missing file is a
function of the first `#include` match found anywhere in the message
alone — `false` when there is no such match (project header assumed),
and the delimiter test `d = '<'` of that first match otherwise, even
when that match is not the directive that referenced the missing file.
The second conjunct shows this concretely: the missing file is `util.h`
(referenced with quotes two lines later), but the first `#include` line
of the message is `#include <stdio.h>`, so the result is classified as a
system header; the third conjunct shows a message with no `#include`
line at all classified as a project header. -/
theorem extract_missing_info_classification :
    (∀ (msg m : String) (b : Bool) (inc : Option String),
      extractMissingInfo msg = some (m, b, inc) →
        b = (match includeSearch msg.data with
             | some (d, _) => decide (d = '<')
             | none => false))
    ∧ extractMissingInfo
        "/src/b.h:3:10: fatal error: util.h: No such file or directory\n    3 | #include <stdio.h>\n    4 | #include \"util.h\"\n"
        = some ("util.h", true, some "/src/b.h")
    ∧ (includeSearch ("/src/a.c:1:1: fatal error: itoa.h: No such file or directory").data = none
        ∧ extractMissingInfo "/src/a.c:1:1: fatal error: itoa.h: No such file or directory"
            = some ("itoa.h", false, some "/src/a.c")) := by
  refine ⟨?_, by decide, by decide, by decide⟩
  intro msg m b inc h
  unfold extractMissingInfo at h
  rcases hf : fatalSearch msg.data with _ | cap
  · rw [hf] at h; simp at h
  · rw [hf] at h
    simp only [Option.some.injEq, Prod.mk.injEq] at h
    exact h.2.1.symm

/-- C10 witness: the classification theorem applied to the concrete
no-include message. -/
theorem extract_missing_info_classification_witness :
    (false : Bool)
      = (match includeSearch ("/src/a.c:1:1: fatal error: itoa.h: No such file or directory").data with
         | some (d, _) => decide (d = '<')
         | none => false) :=
  extract_missing_info_classification.1
    "/src/a.c:1:1: fatal error: itoa.h: No such file or directory"
    "itoa.h" false (some "/src/a.c") (by decide)

end EMSE
